import Mathlib

/-
Verification development for the transacty ledger.

The definitions below are a shallow embedding of the repository source:
- src/primitives/mod.rs      (EventType, Event, ClientState)
- src/state/memory.rs        (DepositRecord, MemoryState, handle_event)
- src/primitives/amount.rs   (Amount parsing and Display formatting)
- src/primitives.rs          (the older, unpadded Display formatting)
- src/lib.rs                 (EventError)

Machine integers are modelled as Nat.  Identifiers (u16 client ids,
u32 transaction ids) are used only as lookup keys, so they are plain Nat.
An Amount is its unsigned scaled representation (u64 counting 1/10000ths).
Where the Rust code can panic (the duplicate-deposit panic in the Deposit
branch) or where an unsigned subtraction is not guarded by a sufficiency
check (so the Rust primitive would panic in debug mode or wrap in release
mode), the embedding returns a distinguished abnormal outcome instead of
silently truncating.
-/

/-- EventType from src/primitives/mod.rs. -/
inductive EventType
  | deposit
  | withdrawal
  | dispute
  | resolve
  | chargeback
deriving DecidableEq

/-- Event from src/primitives/mod.rs: kind, client id, transaction id, scaled amount. -/
structure Event where
  event_type : EventType
  client : Nat
  tx : Nat
  amount : Nat
deriving DecidableEq

/-- ClientState from src/primitives/mod.rs. -/
structure ClientState where
  available : Nat
  held : Nat
  locked : Bool
deriving DecidableEq

/-- DepositRecord from src/state/memory.rs. -/
structure DepositRecord where
  event : Event
  is_disputed : Bool
deriving DecidableEq

/-- EventError from src/lib.rs, together with the IllegalDispute variant that
src/state/memory.rs constructs in its Dispute branch.  The StateError wrapper is
irrelevant to MemoryState (whose backend error type is the unit type) and is omitted. -/
inductive EventError
  | duplicateTransactionId (tx : Nat)
  | insufficientFunds (client : Nat) (tx : Nat)
  | accountLocked (client : Nat) (tx : Nat)
  | doubleDispute (client : Nat) (tx : Nat)
  | unknownClient (client : Nat)
  | illegalDispute (client : Nat) (tx : Nat) (ty : EventType)
deriving DecidableEq

/-- The observable outcome of one handle_event call.  ok and err mirror the Rust
Result; panicked is the duplicate-transaction-id panic in the Deposit branch;
underflow marks an unguarded unsigned subtraction whose minuend is smaller than
the subtrahend (a debug-mode panic / release-mode wrap in Rust). -/
inductive Outcome
  | ok
  | err (e : EventError)
  | panicked
  | underflow
deriving DecidableEq

/-- HashMap lookup, modelled on an association list. -/
def alLookup {α : Type} : List (Nat × α) → Nat → Option α
  | [], _ => none
  | (k, v) :: rest, key => if key = k then some v else alLookup rest key

/-- HashMap insert (overwrite an existing key in place, otherwise append),
modelled on an association list. -/
def alSet {α : Type} : List (Nat × α) → Nat → α → List (Nat × α)
  | [], key, v => [(key, v)]
  | (k, w) :: rest, key, v =>
      if key = k then (key, v) :: rest else (k, w) :: alSet rest key v

/-- MemoryState from src/state/memory.rs: the client map and the deposit-record map. -/
structure MemoryState where
  client_state : List (Nat × ClientState)
  deposits : List (Nat × DepositRecord)
deriving DecidableEq

/-- Store a client entry in the client map of a MemoryState. -/
def setClient (s : MemoryState) (c : Nat) (cs : ClientState) : MemoryState :=
  { s with client_state := alSet s.client_state c cs }

/-- Store a deposit record in the deposit-record map of a MemoryState. -/
def setDeposit (s : MemoryState) (tx : Nat) (r : DepositRecord) : MemoryState :=
  { s with deposits := alSet s.deposits tx r }

/-- The initial MemoryState (Default in Rust): both maps empty. -/
def initialState : MemoryState := ⟨[], []⟩

/-- MemoryState::handle_event from src/state/memory.rs, branch by branch.
Returns the outcome together with the state as mutated up to that point
(Rust mutates in place; error returns happen before any mutation, while the
duplicate-deposit panic happens after the client has been credited and the
displaced record overwritten). -/
def handleEvent (s : MemoryState) (event : Event) : Outcome × MemoryState :=
  match event.event_type with
  | EventType.deposit =>
      let cs := (alLookup s.client_state event.client).getD ⟨0, 0, false⟩
      let s1 := setClient s event.client { cs with available := cs.available + event.amount }
      match alLookup s1.deposits event.tx with
      | some _ => (Outcome.panicked, setDeposit s1 event.tx ⟨event, false⟩)
      | none => (Outcome.ok, setDeposit s1 event.tx ⟨event, false⟩)
  | EventType.withdrawal =>
      match alLookup s.client_state event.client with
      | none => (Outcome.err (EventError.unknownClient event.client), s)
      | some st =>
          if st.available < event.amount then
            (Outcome.err (EventError.insufficientFunds event.client event.tx), s)
          else if st.locked then
            (Outcome.err (EventError.accountLocked event.client event.tx), s)
          else
            (Outcome.ok, setClient s event.client { st with available := st.available - event.amount })
  | EventType.dispute =>
      match alLookup s.deposits event.tx with
      | none => (Outcome.ok, s)
      | some record =>
          if record.event.event_type = EventType.deposit then
            match alLookup s.client_state record.event.client with
            | none => (Outcome.err (EventError.unknownClient event.client), s)
            | some st =>
                if st.available < record.event.amount then
                  (Outcome.underflow, s)
                else
                  (Outcome.ok, setClient s record.event.client
                    { st with available := st.available - record.event.amount, held := st.held + record.event.amount })
          else
            (Outcome.err (EventError.illegalDispute event.client event.tx record.event.event_type), s)
  | EventType.resolve =>
      match alLookup s.deposits event.tx with
      | none => (Outcome.ok, s)
      | some record =>
          if record.is_disputed then
            match alLookup s.client_state record.event.client with
            | none => (Outcome.err (EventError.unknownClient event.client), s)
            | some st =>
                if st.held < record.event.amount then
                  (Outcome.underflow, s)
                else
                  (Outcome.ok, setClient s record.event.client
                    { st with held := st.held - record.event.amount, available := st.available + record.event.amount })
          else
            (Outcome.ok, s)
  | EventType.chargeback =>
      match alLookup s.deposits event.tx with
      | none => (Outcome.ok, s)
      | some record =>
          if record.is_disputed then
            match alLookup s.client_state record.event.client with
            | none => (Outcome.err (EventError.unknownClient event.client), s)
            | some st =>
                if st.held < record.event.amount then
                  (Outcome.underflow, s)
                else
                  (Outcome.ok, setClient s record.event.client
                    { st with held := st.held - record.event.amount, locked := true })
          else
            (Outcome.ok, s)

/-- Fold a sequence of events through handle_event, keeping the state component
of every call (this is what process_events in src/lib.rs does with a stream). -/
def applyEvents (s : MemoryState) (events : List Event) : MemoryState :=
  match events with
  | [] => s
  | e :: rest => applyEvents (handleEvent s e).2 rest

/-- C5: the claim says every unsigned subtraction inside handle_event is preceded
by an explicit sufficiency check, so no reachable event sequence underflows; but
the Dispute branch subtracts the record amount from the owning client's available
balance with no such check.  Reached from the empty state: deposit 10.0 to client
1 as tx 1, withdraw 3.0 as tx 2 (available is now 7.0), then dispute tx 1, and the
branch subtracts 10.0 from 7.0 — an unsigned underflow. -/
theorem C5_dispute_subtraction_underflows :
    alLookup (applyEvents initialState
        [⟨EventType.deposit, 1, 1, 100000⟩, ⟨EventType.withdrawal, 1, 2, 30000⟩]).client_state 1
      = some ⟨70000, 0, false⟩ ∧
    (handleEvent (applyEvents initialState
        [⟨EventType.deposit, 1, 1, 100000⟩, ⟨EventType.withdrawal, 1, 2, 30000⟩])
        ⟨EventType.dispute, 1, 1, 0⟩).1 = Outcome.underflow := by
  decide

/-- C1: the claim says a second Deposit reusing transaction id t returns the error
DuplicateTransactionId and leaves the state exactly as after the first deposit, the
available balance not being credited before the duplicate check.  The Deposit branch
instead credits the client first and then panics on the displaced record: after
deposit of 5.0 as tx 1, repeating the same deposit yields the panic outcome (not
an error value) with client 1 already credited to 10.0. -/
theorem C1_duplicate_deposit_credits_then_panics :
    (handleEvent (applyEvents initialState [⟨EventType.deposit, 1, 1, 50000⟩])
        ⟨EventType.deposit, 1, 1, 50000⟩).1 = Outcome.panicked ∧
    (handleEvent (applyEvents initialState [⟨EventType.deposit, 1, 1, 50000⟩])
        ⟨EventType.deposit, 1, 1, 50000⟩).1 ≠ Outcome.err (EventError.duplicateTransactionId 1) ∧
    alLookup (handleEvent (applyEvents initialState [⟨EventType.deposit, 1, 1, 50000⟩])
        ⟨EventType.deposit, 1, 1, 50000⟩).2.client_state 1 = some ⟨100000, 0, false⟩ := by
  decide

/-- C2: the claim says a Dispute on an undisputed deposit record (owning client
present) succeeds, marks the record disputed, and moves the amount from available
to held.  The Dispute branch moves the money but never writes is_disputed: after
deposit of 10.0 as tx 1 by client 1, disputing tx 1 returns ok and moves 10.0 from
available to held, yet the stored record still has is_disputed = false. -/
theorem C2_dispute_leaves_record_unmarked :
    (handleEvent (applyEvents initialState [⟨EventType.deposit, 1, 1, 100000⟩])
        ⟨EventType.dispute, 1, 1, 0⟩).1 = Outcome.ok ∧
    alLookup (handleEvent (applyEvents initialState [⟨EventType.deposit, 1, 1, 100000⟩])
        ⟨EventType.dispute, 1, 1, 0⟩).2.client_state 1 = some ⟨0, 100000, false⟩ ∧
    alLookup (handleEvent (applyEvents initialState [⟨EventType.deposit, 1, 1, 100000⟩])
        ⟨EventType.dispute, 1, 1, 0⟩).2.deposits 1
      = some ⟨⟨EventType.deposit, 1, 1, 100000⟩, false⟩ := by
  decide

/-- C4: the claim states the dispute/resolve inverse law and the dispute/chargeback
law.  Because the Dispute branch never marks the record disputed, the subsequent
Resolve and Chargeback both take the not-disputed early return and change nothing:
after deposit 10.0 (tx 1), dispute tx 1, then resolve tx 1, client 1 still shows
available 0 and held 10.0 (not the pre-dispute 10.0 and 0); with chargeback instead
of resolve, held stays 10.0 and the account is never locked. -/
theorem C4_resolve_and_chargeback_are_noops :
    alLookup (applyEvents initialState
        [⟨EventType.deposit, 1, 1, 100000⟩, ⟨EventType.dispute, 1, 1, 0⟩,
          ⟨EventType.resolve, 1, 1, 0⟩]).client_state 1 = some ⟨0, 100000, false⟩ ∧
    alLookup (applyEvents initialState
        [⟨EventType.deposit, 1, 1, 100000⟩, ⟨EventType.dispute, 1, 1, 0⟩,
          ⟨EventType.chargeback, 1, 1, 0⟩]).client_state 1 = some ⟨0, 100000, false⟩ := by
  decide

/-- C7: the claim says disputing a transaction whose record is currently marked
disputed returns the hard error DoubleDispute and leaves the state unchanged.  The
Dispute branch never consults is_disputed: on a state holding client 1 with
available 10.0 and a deposit record for tx 1 already marked disputed, a second
Dispute returns ok (not DoubleDispute) and moves the 10.0 from available to held
again. -/
theorem C7_double_dispute_not_rejected :
    handleEvent ⟨[(1, ⟨100000, 0, false⟩)], [(1, ⟨⟨EventType.deposit, 1, 1, 100000⟩, true⟩)]⟩
        ⟨EventType.dispute, 1, 1, 0⟩
      = (Outcome.ok, ⟨[(1, ⟨0, 100000, false⟩)], [(1, ⟨⟨EventType.deposit, 1, 1, 100000⟩, true⟩)]⟩) ∧
    (handleEvent ⟨[(1, ⟨100000, 0, false⟩)], [(1, ⟨⟨EventType.deposit, 1, 1, 100000⟩, true⟩)]⟩
        ⟨EventType.dispute, 1, 1, 0⟩).1 ≠ Outcome.err (EventError.doubleDispute 1 1) := by
  decide

/-- The deposits map of a MemoryState is untouched by setClient. -/
theorem setClient_deposits (s : MemoryState) (c : Nat) (cs : ClientState) :
    (setClient s c cs).deposits = s.deposits := rfl

/-- The deposits map of a MemoryState after setDeposit. -/
theorem setDeposit_deposits (s : MemoryState) (tx : Nat) (r : DepositRecord) :
    (setDeposit s tx r).deposits = alSet s.deposits tx r := rfl

/-- A member of an association list after alSet was either there before or is the
new binding. -/
theorem mem_alSet {α : Type} (l : List (Nat × α)) (k : Nat) (v : α) (p : Nat × α)
    (h : p ∈ alSet l k v) : p ∈ l ∨ p = (k, v) := by
  induction l with
  | nil =>
      simp [alSet] at h
      exact Or.inr h
  | cons hd rest ih =>
      obtain ⟨a, b⟩ := hd
      by_cases hk : k = a
      · subst hk
        simp [alSet] at h
        rcases h with h | h
        · exact Or.inr (by simp [h])
        · exact Or.inl (List.mem_cons_of_mem _ h)
      · simp [alSet, hk] at h
        rcases h with h | h
        · exact Or.inl (by simp [h])
        · rcases ih h with h2 | h2
          · exact Or.inl (List.mem_cons_of_mem _ h2)
          · exact Or.inr h2

/-- A successful alLookup exhibits a member of the association list. -/
theorem alLookup_mem {α : Type} (l : List (Nat × α)) (k : Nat) (v : α)
    (h : alLookup l k = some v) : (k, v) ∈ l := by
  induction l with
  | nil => simp [alLookup] at h
  | cons hd rest ih =>
      obtain ⟨a, b⟩ := hd
      by_cases hk : k = a
      · subst hk
        simp [alLookup] at h
        simp [h]
      · simp [alLookup, hk] at h
        exact List.mem_cons_of_mem _ (ih h)

/-- Invariant: every stored deposit record is unmarked (is_disputed is false). -/
def recordsUndisputed (s : MemoryState) : Prop :=
  ∀ p ∈ s.deposits, (Prod.snd p).is_disputed = false

/-- One handle_event call preserves recordsUndisputed: the Deposit branch inserts
records with is_disputed set to false and no branch ever writes the flag. -/
theorem handleEvent_preserves_undisputed (s : MemoryState) (e : Event)
    (hs : recordsUndisputed s) : recordsUndisputed (handleEvent s e).2 := by
  obtain ⟨ty, c, tx, a⟩ := e
  cases ty
  case deposit =>
      simp only [handleEvent]
      split
      all_goals
        intro p hp
        rw [setDeposit_deposits, setClient_deposits] at hp
        rcases mem_alSet _ _ _ _ hp with h | h
        · exact hs p h
        · rw [h]
  case withdrawal =>
      simp only [handleEvent]
      split
      · exact hs
      · split
        · exact hs
        · split
          · exact hs
          · exact hs
  case dispute =>
      simp only [handleEvent]
      split
      · exact hs
      · split
        · split
          · exact hs
          · split
            · exact hs
            · exact hs
        · exact hs
  case resolve =>
      simp only [handleEvent]
      split
      · exact hs
      · split
        · split
          · exact hs
          · split
            · exact hs
            · exact hs
        · exact hs
  case chargeback =>
      simp only [handleEvent]
      split
      · exact hs
      · split
        · split
          · exact hs
          · split
            · exact hs
            · exact hs
        · exact hs

/-- recordsUndisputed holds along any folded event sequence. -/
theorem applyEvents_undisputed (events : List Event) (s : MemoryState)
    (hs : recordsUndisputed s) : recordsUndisputed (applyEvents s events) := by
  induction events generalizing s with
  | nil => exact hs
  | cons e rest ih => exact ih _ (handleEvent_preserves_undisputed s e hs)

/-- On a state satisfying recordsUndisputed, Resolve and Chargeback are exact
no-ops returning ok. -/
theorem handleEvent_resolve_chargeback_id (s : MemoryState) (e : Event)
    (hs : recordsUndisputed s)
    (h : e.event_type = EventType.resolve ∨ e.event_type = EventType.chargeback) :
    handleEvent s e = (Outcome.ok, s) := by
  obtain ⟨ty, c, tx, a⟩ := e
  simp only at h
  rcases h with h1 | h1 <;> subst h1 <;> simp only [handleEvent] <;>
    cases hl : alLookup s.deposits tx with
  | none => rfl
  | some r =>
      have hr : r.is_disputed = false := hs (tx, r) (alLookup_mem _ _ _ hl)
      simp [hr]

/-- C3: in every MemoryState reachable from the initial empty state by any
sequence of handle_event calls, every stored DepositRecord has is_disputed equal
to false (the Deposit branch creates records unmarked and no branch ever sets the
flag); consequently a Resolve or Chargeback event applied to a reachable state is
an exact no-op, leaving every client balance and locked flag unchanged. -/
theorem C3_reachable_records_never_disputed (events : List Event) (e : Event)
    (h : e.event_type = EventType.resolve ∨ e.event_type = EventType.chargeback) :
    (∀ p ∈ (applyEvents initialState events).deposits, (Prod.snd p).is_disputed = false) ∧
    handleEvent (applyEvents initialState events) e
      = (Outcome.ok, applyEvents initialState events) := by
  have hinv : recordsUndisputed (applyEvents initialState events) :=
    applyEvents_undisputed events initialState (by intro p hp; simp [initialState] at hp)
  exact ⟨hinv, handleEvent_resolve_chargeback_id _ _ hinv h⟩

/-- Witness for C3 at the concrete event sequence consisting of one deposit,
followed by a Resolve event. -/
theorem C3_reachable_records_never_disputed_witness :
    ((⟨EventType.resolve, 1, 1, 0⟩ : Event).event_type = EventType.resolve ∨
      (⟨EventType.resolve, 1, 1, 0⟩ : Event).event_type = EventType.chargeback) ∧
    (∀ p ∈ (applyEvents initialState [⟨EventType.deposit, 1, 1, 50000⟩]).deposits,
        (Prod.snd p).is_disputed = false) ∧
    handleEvent (applyEvents initialState [⟨EventType.deposit, 1, 1, 50000⟩])
        ⟨EventType.resolve, 1, 1, 0⟩
      = (Outcome.ok, applyEvents initialState [⟨EventType.deposit, 1, 1, 50000⟩]) :=
  ⟨Or.inl rfl, C3_reachable_records_never_disputed [⟨EventType.deposit, 1, 1, 50000⟩]
      ⟨EventType.resolve, 1, 1, 0⟩ (Or.inl rfl)⟩

/-- Counterexample for C6 as stated: on a locked account whose available balance
is below the requested amount, the Withdrawal branch returns InsufficientFunds,
not AccountLocked, because the sufficiency check runs before the locked check.
Client 1 is locked with available 0; withdrawing 1 yields InsufficientFunds. -/
theorem C6_locked_insufficient_counterexample :
    handleEvent ⟨[(1, ⟨0, 0, true⟩)], []⟩ ⟨EventType.withdrawal, 1, 5, 1⟩
      = (Outcome.err (EventError.insufficientFunds 1 5), ⟨[(1, ⟨0, 0, true⟩)], []⟩) ∧
    (handleEvent ⟨[(1, ⟨0, 0, true⟩)], []⟩ ⟨EventType.withdrawal, 1, 5, 1⟩).1
      ≠ Outcome.err (EventError.accountLocked 1 5) := by
  decide

/-- C6 (amended): for a Withdrawal of amount w by client c at any state s:
if c has no client entry the call returns UnknownClient and leaves the state
unchanged; if c exists with available balance below w it returns
InsufficientFunds and leaves the state unchanged; if c exists, w is at most the
available balance and the account is locked, it returns AccountLocked and leaves
the state unchanged (the sufficiency check precedes the locked check, so a locked
account with insufficient funds reports InsufficientFunds instead); and if c
exists, unlocked, with w at most the available balance, the call succeeds and
only c's available balance changes, to its old value minus w, held and locked
unchanged. -/
theorem C6_withdrawal_law (s : MemoryState) (c tx w : Nat) :
    (alLookup s.client_state c = none →
      handleEvent s ⟨EventType.withdrawal, c, tx, w⟩
        = (Outcome.err (EventError.unknownClient c), s)) ∧
    (∀ cs : ClientState, alLookup s.client_state c = some cs →
      (cs.available < w →
        handleEvent s ⟨EventType.withdrawal, c, tx, w⟩
          = (Outcome.err (EventError.insufficientFunds c tx), s)) ∧
      (w ≤ cs.available → cs.locked = true →
        handleEvent s ⟨EventType.withdrawal, c, tx, w⟩
          = (Outcome.err (EventError.accountLocked c tx), s)) ∧
      (w ≤ cs.available → cs.locked = false →
        handleEvent s ⟨EventType.withdrawal, c, tx, w⟩
          = (Outcome.ok, setClient s c ⟨cs.available - w, cs.held, cs.locked⟩))) := by
  constructor
  · intro hnone
    simp [handleEvent, hnone]
  · intro cs hsome
    refine ⟨?_, ?_, ?_⟩
    · intro hlt
      simp [handleEvent, hsome, hlt]
    · intro hle hlock
      simp [handleEvent, hsome, Nat.not_lt.mpr hle, hlock]
    · intro hle hlock
      simp [handleEvent, hsome, Nat.not_lt.mpr hle, hlock]

/-- Witness for C6 at a concrete one-client state: client 1 has available 50,
held 7, unlocked; withdrawing 20 as tx 9 succeeds and leaves available 30. -/
theorem C6_withdrawal_law_witness :
    alLookup (⟨[(1, ⟨50, 7, false⟩)], []⟩ : MemoryState).client_state 1
      = some ⟨50, 7, false⟩ ∧
    (20 ≤ (50 : Nat) ∧ (⟨50, 7, false⟩ : ClientState).locked = false) ∧
    handleEvent ⟨[(1, ⟨50, 7, false⟩)], []⟩ ⟨EventType.withdrawal, 1, 9, 20⟩
      = (Outcome.ok, setClient ⟨[(1, ⟨50, 7, false⟩)], []⟩ 1 ⟨30, 7, false⟩) :=
  ⟨rfl, ⟨by decide, rfl⟩,
    ((C6_withdrawal_law ⟨[(1, ⟨50, 7, false⟩)], []⟩ 1 9 20).2 ⟨50, 7, false⟩ rfl).2.2
      (by decide) rfl⟩

/-- ASCII digit test, the shape matched by the backslash-d atoms of AMOUNT_RE in
src/primitives/amount.rs (all inputs of interest are ASCII). -/
def isDigitChar (c : Char) : Bool := 48 ≤ c.toNat && c.toNat ≤ 57

/-- Numeric value of one ASCII digit. -/
def digitVal (c : Char) : Nat := c.toNat - 48

/-- Numeric value of a big-endian ASCII digit string, as u64 parsing computes it. -/
def digitsVal (cs : List Char) : Nat := cs.foldl (fun acc c => 10 * acc + digitVal c) 0

/-- ASCII digit character for a value below ten. -/
def digitChar (d : Nat) : Char := Char.ofNat (48 + d)

/-- Decimal rendering, accumulator form.  The first argument is fuel bounding the
recursion depth (any fuel at least the number being rendered is enough), keeping
the definition structural so that concrete instances reduce. -/
def natToDigitsGo : Nat → Nat → List Char → List Char
  | 0, n, acc => digitChar n :: acc
  | fuel + 1, n, acc =>
      if n < 10 then digitChar n :: acc
      else natToDigitsGo fuel (n / 10) (digitChar (n % 10) :: acc)

/-- Decimal rendering of a Nat, as the Rust Display for unsigned integers. -/
def natToDigits (n : Nat) : List Char := natToDigitsGo n n []

/-- trim_end_matches of the zero character, from the post handling in from_str. -/
def trimTrailingZeros (cs : List Char) : List Char :=
  (cs.reverse.dropWhile (fun c => c == '0')).reverse

/-- Left zero padding to a given width, as the 04 format specifier of the Display
impl in src/primitives/amount.rs. -/
def padLeftZeros (width : Nat) (cs : List Char) : List Char :=
  List.replicate (width - cs.length) '0' ++ cs

/-- The largest u64 value. -/
def u64Max : Nat := 18446744073709551615

/-- Result of Amount::from_str: a scaled value, one of the two ParseAmountError
variants, or a panic of the Rust function (integer overflow in debug mode, or the
expect on an all-zero fractional capture whose trim leaves the empty string). -/
inductive ParseResult
  | ok (value : Nat)
  | invalidFormat
  | outOfRange
  | panicked
deriving DecidableEq

/-- FromStr for Amount from src/primitives/amount.rs, split into stages so the
branches rewrite cleanly.  The input string is its character list.  AMOUNT_RE
anchors the whole input: one or more digits (pre), optionally a dot followed by
one to four digits (post, matched greedily) and any further digits (dust,
discarded); the anchored match is realised here as the takeWhile/dropWhile split
at the first non-digit, which must then be nothing or a dot followed by digits
only.  The pre digits are parsed as u64 (OutOfRange past u64Max), scaled by
10000 (a u64 overflow panics in debug mode), and the post capture (the first
four fractional digits) is trimmed of trailing zeros (an all-zero capture trims
to the empty string, whose u64 parse panics through expect), scaled by ten to
the count of dropped places, and added (again panicking past u64Max). -/
def parseFracPart (pre frac : List Char) : ParseResult :=
  if frac = [] then ParseResult.invalidFormat
  else if frac.all isDigitChar then
    if u64Max < digitsVal pre then ParseResult.outOfRange
    else if u64Max < 10000 * digitsVal pre then ParseResult.panicked
    else if trimTrailingZeros (frac.take 4) = [] then ParseResult.panicked
    else if u64Max < 10000 * digitsVal pre
        + 10 ^ (4 - (trimTrailingZeros (frac.take 4)).length)
          * digitsVal (trimTrailingZeros (frac.take 4)) then ParseResult.panicked
    else ParseResult.ok (10000 * digitsVal pre
        + 10 ^ (4 - (trimTrailingZeros (frac.take 4)).length)
          * digitsVal (trimTrailingZeros (frac.take 4)))
  else ParseResult.invalidFormat

/-- The part of from_str after the pre digits: either the input ends (no
fractional part) or a dot followed by the fractional digits. -/
def parseRest (pre : List Char) : List Char → ParseResult
  | [] =>
      if u64Max < digitsVal pre then ParseResult.outOfRange
      else if u64Max < 10000 * digitsVal pre then ParseResult.panicked
      else ParseResult.ok (10000 * digitsVal pre)
  | c :: frac =>
      if c = '.' then parseFracPart pre frac else ParseResult.invalidFormat

def parseAmount (cs : List Char) : ParseResult :=
  if cs.takeWhile isDigitChar = [] then ParseResult.invalidFormat
  else parseRest (cs.takeWhile isDigitChar) (cs.dropWhile isDigitChar)

/-- Display for Amount from src/primitives/amount.rs: integer part, then, when
the fractional remainder is nonzero, a dot and the remainder zero-padded to four
places. -/
def formatAmount (v : Nat) : List Char :=
  if v % 10000 = 0 then natToDigits (v / 10000)
  else natToDigits (v / 10000) ++ '.' :: padLeftZeros 4 (natToDigits (v % 10000))

/-- Display for Amount from the older src/primitives.rs: identical except the
fractional remainder is rendered with no zero padding. -/
def formatAmountUnpadded (v : Nat) : List Char :=
  if v % 10000 = 0 then natToDigits (v / 10000)
  else natToDigits (v / 10000) ++ '.' :: natToDigits (v % 10000)


/-- Character code of the digit character for a value below ten. -/
theorem digitChar_toNat (d : Nat) (h : d < 10) : (digitChar d).toNat = 48 + d := by
  interval_cases d <;> decide

/-- The digit character of a value below ten is an ASCII digit. -/
theorem isDigitChar_digitChar (d : Nat) (h : d < 10) : isDigitChar (digitChar d) = true := by
  interval_cases d <;> decide

/-- Digit characters round-trip through digitVal. -/
theorem digitVal_digitChar (d : Nat) (h : d < 10) : digitVal (digitChar d) = d := by
  interval_cases d <;> decide

/-- The digits fold evaluated at an arbitrary accumulator. -/
theorem digitsVal_foldl (cs : List Char) (i : Nat) :
    cs.foldl (fun acc c => 10 * acc + digitVal c) i = i * 10 ^ cs.length + digitsVal cs := by
  induction cs generalizing i with
  | nil => simp [digitsVal]
  | cons c rest ih =>
      simp only [List.foldl_cons, List.length_cons, digitsVal]
      rw [ih (10 * i + digitVal c), ih (10 * 0 + digitVal c)]
      ring

/-- The value of a concatenation of digit strings. -/
theorem digitsVal_append (a b : List Char) :
    digitsVal (a ++ b) = digitsVal a * 10 ^ b.length + digitsVal b := by
  simp only [digitsVal, List.foldl_append]
  exact digitsVal_foldl b (digitsVal a)

/-- A run of zero characters has value zero. -/
theorem digitsVal_replicate_zero (k : Nat) : digitsVal (List.replicate k '0') = 0 := by
  induction k with
  | zero => rfl
  | succ k ih =>
      rw [List.replicate_succ]
      simp only [digitsVal, List.foldl_cons]
      have h0 : (10 * 0 + digitVal '0') = 0 := by decide
      rw [h0]
      exact ih

/-- The rendering accumulator splits off. -/
theorem natToDigitsGo_acc (fuel : Nat) : ∀ (n : Nat) (acc : List Char),
    natToDigitsGo fuel n acc = natToDigitsGo fuel n [] ++ acc := by
  induction fuel with
  | zero => intro n acc; rfl
  | succ fuel ih =>
      intro n acc
      by_cases h : n < 10
      · simp [natToDigitsGo, h]
      · simp only [natToDigitsGo, if_neg h]
        rw [ih (n / 10) (digitChar (n % 10) :: acc), ih (n / 10) [digitChar (n % 10)]]
        simp

/-- Any fuel at least the rendered number gives the canonical rendering. -/
theorem natToDigitsGo_fuel (n : Nat) : ∀ (fuel : Nat) (acc : List Char), n ≤ fuel →
    natToDigitsGo fuel n acc = natToDigitsGo n n acc := by
  induction n using Nat.strong_induction_on with
  | _ n ih =>
    intro fuel acc hle
    by_cases hn : n < 10
    · cases fuel with
      | zero =>
          have h0 : n = 0 := by omega
          subst h0
          rfl
      | succ f =>
          rw [natToDigitsGo, if_pos hn]
          cases n with
          | zero => rfl
          | succ m => rw [natToDigitsGo, if_pos hn]
    · obtain ⟨f, rfl⟩ : ∃ f, fuel = f + 1 := ⟨fuel - 1, by omega⟩
      obtain ⟨m, rfl⟩ : ∃ m, n = m + 1 := ⟨n - 1, by omega⟩
      simp only [natToDigitsGo, if_neg hn]
      have hdiv : (m + 1) / 10 < m + 1 := Nat.div_lt_self (Nat.succ_pos m) (by omega)
      rw [ih _ hdiv f _ (by omega), ih _ hdiv m _ (by omega)]

/-- One-step unfolding of the decimal rendering. -/
theorem natToDigits_unfold (n : Nat) :
    natToDigits n
      = if n < 10 then [digitChar n] else natToDigits (n / 10) ++ [digitChar (n % 10)] := by
  by_cases hn : n < 10
  · rw [if_pos hn]
    unfold natToDigits
    cases n with
    | zero => rfl
    | succ m => rw [natToDigitsGo, if_pos hn]
  · rw [if_neg hn]
    unfold natToDigits
    obtain ⟨m, rfl⟩ : ∃ m, n = m + 1 := ⟨n - 1, by omega⟩
    rw [natToDigitsGo, if_neg hn]
    have hdiv : (m + 1) / 10 < m + 1 := Nat.div_lt_self (Nat.succ_pos m) (by omega)
    rw [natToDigitsGo_fuel ((m + 1) / 10) m _ (by omega)]
    rw [natToDigitsGo_acc]

/-- Decimal rendering round-trips through digitsVal. -/
theorem digitsVal_natToDigits (n : Nat) : digitsVal (natToDigits n) = n := by
  induction n using Nat.strong_induction_on with
  | _ n ih =>
    rw [natToDigits_unfold]
    by_cases hn : n < 10
    · rw [if_pos hn]
      simp only [digitsVal, List.foldl_cons, List.foldl_nil]
      rw [digitVal_digitChar n hn]
      omega
    · rw [if_neg hn]
      rw [digitsVal_append]
      have hdiv : n / 10 < n := Nat.div_lt_self (by omega) (by omega)
      rw [ih _ hdiv]
      have h10 : n % 10 < 10 := Nat.mod_lt _ (by omega)
      simp only [digitsVal, List.foldl_cons, List.foldl_nil, List.length_cons,
        List.length_nil]
      rw [digitVal_digitChar _ h10]
      omega

/-- Every character of a decimal rendering is an ASCII digit. -/
theorem natToDigits_all (n : Nat) : (natToDigits n).all isDigitChar = true := by
  induction n using Nat.strong_induction_on with
  | _ n ih =>
    rw [natToDigits_unfold]
    by_cases hn : n < 10
    · simp [if_pos hn, isDigitChar_digitChar n hn]
    · rw [if_neg hn]
      rw [List.all_append]
      have hdiv : n / 10 < n := Nat.div_lt_self (by omega) (by omega)
      have h10 : n % 10 < 10 := Nat.mod_lt _ (by omega)
      simp [ih _ hdiv, isDigitChar_digitChar _ h10]

/-- A decimal rendering is never empty. -/
theorem natToDigits_ne_nil (n : Nat) : natToDigits n ≠ [] := by
  rw [natToDigits_unfold]
  by_cases hn : n < 10 <;> simp [hn]

/-- Numbers below the k-th power of ten render in at most k digits. -/
theorem natToDigits_length_le (n : Nat) : ∀ k, 1 ≤ k → n < 10 ^ k →
    (natToDigits n).length ≤ k := by
  induction n using Nat.strong_induction_on with
  | _ n ih =>
    intro k hk h
    rw [natToDigits_unfold]
    by_cases hn : n < 10
    · simp only [if_pos hn, List.length_cons, List.length_nil]
      omega
    · rw [if_neg hn]
      simp only [List.length_append, List.length_cons, List.length_nil]
      have hk2 : 2 ≤ k := by
        by_contra h2
        have hk1 : k = 1 := by omega
        rw [hk1] at h
        norm_num at h
        omega
      have hdiv : n / 10 < n := Nat.div_lt_self (by omega) (by omega)
      have hpow : 10 ^ k = 10 ^ (k - 1) * 10 := by
        rw [← pow_succ]
        congr 1
        omega
      have hlt : n / 10 < 10 ^ (k - 1) := by
        rw [Nat.div_lt_iff_lt_mul (by norm_num)]
        omega
      have := ih (n / 10) hdiv (k - 1) (by omega) hlt
      omega

/-- Numbers at least the k-th power of ten render in more than k digits. -/
theorem natToDigits_length_ge (n : Nat) : ∀ k, 10 ^ k ≤ n →
    k + 1 ≤ (natToDigits n).length := by
  induction n using Nat.strong_induction_on with
  | _ n ih =>
    intro k h
    rw [natToDigits_unfold]
    by_cases hn : n < 10
    · have hk0 : k = 0 := by
        by_contra h0
        have h1 : (10 : Nat) = 10 ^ 1 := by norm_num
        have : (10 : Nat) ≤ 10 ^ k := by
          rw [h1]
          exact Nat.pow_le_pow_right (by norm_num) (by omega)
        omega
      subst hk0
      simp [hn]
    · rw [if_neg hn]
      simp only [List.length_append, List.length_cons, List.length_nil]
      cases k with
      | zero => omega
      | succ k2 =>
          have hdiv : n / 10 < n := Nat.div_lt_self (by omega) (by omega)
          have hge : 10 ^ k2 ≤ n / 10 := by
            rw [Nat.le_div_iff_mul_le (by norm_num)]
            calc 10 ^ k2 * 10 = 10 ^ (k2 + 1) := by rw [pow_succ]
            _ ≤ n := h
          have := ih (n / 10) hdiv k2 hge
          omega

/-- takeWhile and dropWhile on an all-digit string followed by a non-digit. -/
theorem takeWhile_digits_append (a : List Char) (ha : a.all isDigitChar = true)
    (c : Char) (hc : isDigitChar c = false) (b : List Char) :
    (a ++ c :: b).takeWhile isDigitChar = a ∧ (a ++ c :: b).dropWhile isDigitChar = c :: b := by
  induction a with
  | nil => simp [List.takeWhile_cons, List.dropWhile_cons, hc]
  | cons x xs ih =>
      simp only [List.all_cons, Bool.and_eq_true] at ha
      obtain ⟨hx, hxs⟩ := ha
      obtain ⟨iht, ihd⟩ := ih hxs
      simp [List.takeWhile_cons, List.dropWhile_cons, hx, iht, ihd]

/-- takeWhile and dropWhile on an all-digit string. -/
theorem takeWhile_digits_self (a : List Char) (ha : a.all isDigitChar = true) :
    a.takeWhile isDigitChar = a ∧ a.dropWhile isDigitChar = [] := by
  induction a with
  | nil => simp
  | cons x xs ih =>
      simp only [List.all_cons, Bool.and_eq_true] at ha
      obtain ⟨hx, hxs⟩ := ha
      obtain ⟨iht, ihd⟩ := ih hxs
      simp [List.takeWhile_cons, List.dropWhile_cons, hx, iht, ihd]

/-- A takeWhile of the zero-character test is a run of zero characters. -/
theorem takeWhile_zeros (l : List Char) :
    l.takeWhile (fun c => c == '0')
      = List.replicate (l.takeWhile (fun c => c == '0')).length '0' := by
  induction l with
  | nil => rfl
  | cons x xs ih =>
      by_cases hx : x = '0'
      · subst hx
        simp only [List.takeWhile_cons, beq_self_eq_true, if_pos]
        rw [List.length_cons, List.replicate_succ]
        exact congrArg _ ih
      · have hx2 : (x == '0') = false := by simp [hx]
        simp [List.takeWhile_cons, hx2]

/-- Trimming trailing zeros splits a string into its trimmed part and a zero run. -/
theorem trim_append (cs : List Char) :
    trimTrailingZeros cs
      ++ List.replicate (cs.length - (trimTrailingZeros cs).length) '0' = cs := by
  have hsplit : List.takeWhile (fun c => c == '0') cs.reverse
      ++ List.dropWhile (fun c => c == '0') cs.reverse = cs.reverse :=
    List.takeWhile_append_dropWhile (fun c => c == '0') cs.reverse
  have hlen : cs.length = (List.takeWhile (fun c => c == '0') cs.reverse).length
      + (List.dropWhile (fun c => c == '0') cs.reverse).length := by
    have h2 := congrArg List.length hsplit
    simp only [List.length_append, List.length_reverse] at h2
    omega
  unfold trimTrailingZeros
  have hlen2 : cs.length - (List.dropWhile (fun c => c == '0') cs.reverse).reverse.length
      = (List.takeWhile (fun c => c == '0') cs.reverse).length := by
    rw [List.length_reverse]
    omega
  rw [hlen2]
  conv_rhs => rw [← List.reverse_reverse cs, ← hsplit]
  rw [List.reverse_append]
  congr 1
  conv_rhs => rw [takeWhile_zeros]
  rw [List.reverse_replicate]

/-- The trimmed part is never longer than the original. -/
theorem trim_length_le (cs : List Char) : (trimTrailingZeros cs).length ≤ cs.length := by
  have h2 := congrArg List.length (trim_append cs)
  simp only [List.length_append, List.length_replicate] at h2
  omega

/-- The value of a digit string in terms of its trimmed part. -/
theorem digitsVal_trim (cs : List Char) :
    digitsVal cs
      = digitsVal (trimTrailingZeros cs)
        * 10 ^ (cs.length - (trimTrailingZeros cs).length) := by
  conv_lhs => rw [← trim_append cs]
  rw [digitsVal_append, digitsVal_replicate_zero, List.length_replicate]
  omega

/-- A digit string of nonzero value does not trim to the empty string. -/
theorem trim_ne_nil (cs : List Char) (h : digitsVal cs ≠ 0) : trimTrailingZeros cs ≠ [] := by
  intro h0
  apply h
  rw [digitsVal_trim cs, h0]
  simp [digitsVal]

/-- C9: for every value of the unsigned scaled representation (any u64), parsing
the text produced by the Display implementation of src/primitives/amount.rs
succeeds and returns the same value. -/
theorem C9_parse_format_roundtrip (v : Nat) (h : v < 2 ^ 64) :
    parseAmount (formatAmount v) = ParseResult.ok v := by
  have hpow : (2 : Nat) ^ 64 = 18446744073709551616 := by norm_num
  have hval : digitsVal (natToDigits (v / 10000)) = v / 10000 := digitsVal_natToDigits _
  have hdig := natToDigits_all (v / 10000)
  have hne := natToDigits_ne_nil (v / 10000)
  have hdivle : v / 10000 ≤ v := Nat.div_le_self v 10000
  have hmulle : v / 10000 * 10000 ≤ v := Nat.div_mul_le_self v 10000
  have hu1 : ¬ u64Max < digitsVal (natToDigits (v / 10000)) := by
    rw [hval]
    unfold u64Max
    omega
  have hu2 : ¬ u64Max < 10000 * digitsVal (natToDigits (v / 10000)) := by
    rw [hval]
    unfold u64Max
    omega
  by_cases hpost : v % 10000 = 0
  · rw [formatAmount, if_pos hpost]
    obtain ⟨ht, hd⟩ := takeWhile_digits_self _ hdig
    unfold parseAmount
    rw [ht, hd, if_neg hne]
    simp only [parseRest]
    rw [if_neg hu1, if_neg hu2, hval]
    congr 1
    omega
  · rw [formatAmount, if_neg hpost]
    have hmod : v % 10000 < 10000 := Nat.mod_lt _ (by norm_num)
    have hlenle : (natToDigits (v % 10000)).length ≤ 4 :=
      natToDigits_length_le _ 4 (by norm_num) (by omega)
    have hlen4 : (padLeftZeros 4 (natToDigits (v % 10000))).length = 4 := by
      unfold padLeftZeros
      rw [List.length_append, List.length_replicate]
      omega
    have hfdig : (padLeftZeros 4 (natToDigits (v % 10000))).all isDigitChar = true := by
      unfold padLeftZeros
      rw [List.all_append]
      have hrep : (List.replicate (4 - (natToDigits (v % 10000)).length) '0').all isDigitChar
          = true := by
        rw [List.all_eq_true]
        intro x hx
        rw [List.eq_of_mem_replicate hx]
        decide
      rw [hrep, natToDigits_all]
      rfl
    have hfval : digitsVal (padLeftZeros 4 (natToDigits (v % 10000))) = v % 10000 := by
      unfold padLeftZeros
      rw [digitsVal_append, digitsVal_replicate_zero, digitsVal_natToDigits]
      simp
    obtain ⟨ht, hd⟩ := takeWhile_digits_append _ hdig '.' (by decide)
        (padLeftZeros 4 (natToDigits (v % 10000)))
    unfold parseAmount
    rw [ht, hd, if_neg hne]
    simp only [parseRest, if_true]
    have hfne : padLeftZeros 4 (natToDigits (v % 10000)) ≠ [] := by
      intro h0
      rw [h0] at hlen4
      simp at hlen4
    unfold parseFracPart
    rw [if_neg hfne, if_pos hfdig, if_neg hu1, if_neg hu2]
    have htake : (padLeftZeros 4 (natToDigits (v % 10000))).take 4
        = padLeftZeros 4 (natToDigits (v % 10000)) :=
      List.take_of_length_le (le_of_eq hlen4)
    rw [htake]
    have htne : trimTrailingZeros (padLeftZeros 4 (natToDigits (v % 10000))) ≠ [] := by
      apply trim_ne_nil
      rw [hfval]
      omega
    rw [if_neg htne]
    have hsplit := digitsVal_trim (padLeftZeros 4 (natToDigits (v % 10000)))
    rw [hfval, hlen4] at hsplit
    have hkey : 10 ^ (4 - (trimTrailingZeros (padLeftZeros 4 (natToDigits (v % 10000)))).length)
        * digitsVal (trimTrailingZeros (padLeftZeros 4 (natToDigits (v % 10000)))) = v % 10000 := by
      rw [Nat.mul_comm]
      exact hsplit.symm
    rw [hkey, hval]
    have hvv : 10000 * (v / 10000) + v % 10000 = v := by omega
    rw [hvv]
    rw [if_neg (by unfold u64Max; omega)]

/-- Witness for C9 at the concrete value 10010 (the text 1.0010). -/
theorem C9_parse_format_roundtrip_witness :
    (10010 : Nat) < 2 ^ 64 ∧ parseAmount (formatAmount 10010) = ParseResult.ok 10010 :=
  ⟨by decide, C9_parse_format_roundtrip 10010 (by decide)⟩

/-- Counterexample for C8 as stated: with pre 0, post 1, dust 2 the formed string
is 0.12, whose first-four-fractional-digits capture is 12 (the regex does not know
where the digits of post stop and those of dust start), so parsing yields the
scaled value 1200, not pre*10000 + post = 1. -/
theorem C8_small_post_counterexample :
    ((0 : Nat) < 10 ^ 10 ∧ 1 ≤ (1 : Nat) ∧ (1 : Nat) ≤ 9999 ∧ 1 ≤ (2 : Nat) ∧ (2 : Nat) ≤ 9999) ∧
    parseAmount (natToDigits 0 ++ '.' :: (natToDigits 1 ++ natToDigits 2))
      = ParseResult.ok 1200 ∧
    ParseResult.ok 1200 ≠ ParseResult.ok ((0 : Nat) * 10000 + 1) := by
  decide

/-- C8 (amended): parse of 1.23456 succeeds, discards the dust digit and equals
parse of 1.2345; and for pre below ten billion, post with exactly four decimal
digits (1000 to 9999, so the post capture of the regex is exactly the digits of
post) and dust from 1 to 9999, parsing the string pre . post dust yields the
Amount with scaled value pre*10000 + post. -/
theorem C8_parse_truncates_dust (pre post dust : Nat) (h1 : pre < 10 ^ 10)
    (h2 : 1000 ≤ post) (h3 : post ≤ 9999) (h4 : 1 ≤ dust) (h5 : dust ≤ 9999) :
    parseAmount (natToDigits pre ++ '.' :: (natToDigits post ++ natToDigits dust))
      = ParseResult.ok (pre * 10000 + post) ∧
    parseAmount ['1', '.', '2', '3', '4', '5', '6'] = ParseResult.ok 12345 ∧
    parseAmount ['1', '.', '2', '3', '4', '5', '6'] = parseAmount ['1', '.', '2', '3', '4', '5'] := by
  refine ⟨?_, by decide, by decide⟩
  have hten : (10 : Nat) ^ 10 = 10000000000 := by norm_num
  have hpredig := natToDigits_all pre
  have hprene := natToDigits_ne_nil pre
  have hpreval : digitsVal (natToDigits pre) = pre := digitsVal_natToDigits pre
  have hpostlen : (natToDigits post).length = 4 := by
    have hle := natToDigits_length_le post 4 (by norm_num) (lt_of_le_of_lt h3 (by norm_num))
    have hge := natToDigits_length_ge post 3 (le_trans (by norm_num) h2)
    omega
  have hfracdig : ((natToDigits post) ++ (natToDigits dust)).all isDigitChar = true := by
    rw [List.all_append, natToDigits_all, natToDigits_all]
    rfl
  have hfracne : (natToDigits post) ++ (natToDigits dust) ≠ [] := by
    simp [natToDigits_ne_nil post]
  obtain ⟨ht, hd⟩ := takeWhile_digits_append _ hpredig '.' (by decide)
      ((natToDigits post) ++ (natToDigits dust))
  unfold parseAmount
  rw [ht, hd, if_neg hprene]
  simp only [parseRest, if_true]
  unfold parseFracPart
  rw [if_neg hfracne, if_pos hfracdig]
  have hu1 : ¬ u64Max < digitsVal (natToDigits pre) := by
    rw [hpreval]
    unfold u64Max
    omega
  have hu2 : ¬ u64Max < 10000 * digitsVal (natToDigits pre) := by
    rw [hpreval]
    unfold u64Max
    omega
  rw [if_neg hu1, if_neg hu2]
  have htake : ((natToDigits post) ++ (natToDigits dust)).take 4 = natToDigits post := by
    rw [← hpostlen]
    exact List.take_left _ _
  rw [htake]
  have hpostval : digitsVal (natToDigits post) = post := digitsVal_natToDigits post
  have htne : trimTrailingZeros (natToDigits post) ≠ [] := by
    apply trim_ne_nil
    rw [hpostval]
    omega
  rw [if_neg htne]
  have hsplit := digitsVal_trim (natToDigits post)
  rw [hpostval, hpostlen] at hsplit
  have hkey : 10 ^ (4 - (trimTrailingZeros (natToDigits post)).length)
      * digitsVal (trimTrailingZeros (natToDigits post)) = post := by
    rw [Nat.mul_comm]
    exact hsplit.symm
  rw [hkey, hpreval]
  have hub : ¬ u64Max < 10000 * pre + post := by
    unfold u64Max
    omega
  rw [if_neg hub]
  congr 1
  ring

/-- Witness for C8 at pre 5, post 1234, dust 5 (the text 5.12345). -/
theorem C8_parse_truncates_dust_witness :
    ((5 : Nat) < 10 ^ 10 ∧ 1000 ≤ (1234 : Nat) ∧ (1234 : Nat) ≤ 9999
      ∧ 1 ≤ (5 : Nat) ∧ (5 : Nat) ≤ 9999) ∧
    parseAmount (natToDigits 5 ++ '.' :: (natToDigits 1234 ++ natToDigits 5))
      = ParseResult.ok (5 * 10000 + 1234) :=
  ⟨by decide, (C8_parse_truncates_dust 5 1234 5 (by decide) (by decide) (by decide)
      (by decide) (by decide)).1⟩

/-- Counterexample for C10 as stated: the two Display implementations disagree at
the scaled value 10001, which the padded Display of src/primitives/amount.rs
renders 1.0001 while the unpadded Display of src/primitives.rs renders 1.1. -/
theorem C10_display_counterexample :
    formatAmountUnpadded 10001 = ['1', '.', '1'] ∧
    formatAmount 10001 = ['1', '.', '0', '0', '0', '1'] ∧
    formatAmountUnpadded 10001 ≠ formatAmount 10001 := by
  decide

/-- C10 (amended): the two Display implementations agree exactly on the Amounts
whose fractional remainder is zero or at least 1000 scaled units (first
fractional digit nonzero); they differ whenever the remainder has a leading
fractional zero, the older impl dropping the zero padding. -/
theorem C10_display_agree (v : Nat) (h : v % 10000 = 0 ∨ 1000 ≤ v % 10000) :
    formatAmountUnpadded v = formatAmount v := by
  rcases h with h | h
  · rw [formatAmount, formatAmountUnpadded, if_pos h, if_pos h]
  · have hmod : v % 10000 < 10000 := Nat.mod_lt _ (by norm_num)
    have hne : ¬ v % 10000 = 0 := by omega
    rw [formatAmount, formatAmountUnpadded, if_neg hne, if_neg hne]
    have hlen : (natToDigits (v % 10000)).length = 4 := by
      have hle := natToDigits_length_le (v % 10000) 4 (by norm_num) (by omega)
      have hge := natToDigits_length_ge (v % 10000) 3 (le_trans (by norm_num) h)
      omega
    unfold padLeftZeros
    rw [hlen]
    simp

/-- Witness for C10 at the scaled value 11000 (fractional remainder 1000),
rendered 1.1000 by both implementations. -/
theorem C10_display_agree_witness :
    ((11000 : Nat) % 10000 = 0 ∨ 1000 ≤ (11000 : Nat) % 10000) ∧
    formatAmountUnpadded 11000 = formatAmount 11000 :=
  ⟨Or.inr (by decide), C10_display_agree 11000 (Or.inr (by decide))⟩
